import Mathlib

/-!
Verification of the `funct` Array container (src/funct/Array.py) against its
specification.  The Python class `Array(list)` is embedded shallowly: a value
in the tree is either an opaque scalar (modelled here by integers, booleans
and character strings, the scalar kinds the spec exercises) or a nested
array.  Python `list`, `tuple`, `range` and `Array` objects are all
represented by the `Val.arr` constructor: the source converts every base
iterable to `Array` on insertion, and none of the verified operations
distinguishes the raw kinds afterwards.  Exceptions are modelled with
`Except`; an exception raised by a mutating operation carries the state of
the container at the moment of the raise, so that partial mutation is
observable.
-/

set_option autoImplicit false

namespace Funct

/-- A value in the container tree: an opaque scalar or a nested array.
Mirrors the element universe of `Array` in src/funct/Array.py. -/
inductive Val : Type where
  | int : Int → Val
  | bool : Bool → Val
  | str : String → Val
  | arr : List Val → Val
deriving Repr

/-- A Python `slice(start, stop, step)` object; `none` is Python `None`. -/
structure Slice : Type where
  start : Option Int
  stop : Option Int
  step : Option Int
deriving DecidableEq, Repr

/-- A key passed to `__getitem__` / `__setitem__`: an integer, a boolean
(`isinstance(True, int)` holds in Python), a slice, a list-like sequence of
keys, a tuple of keys, or any other (invalid) object. -/
inductive Key : Type where
  | int : Int → Key
  | bool : Bool → Key
  | slice : Slice → Key
  | list : List Key → Key
  | tuple : List Key → Key
  | other : Key
deriving Repr

/-- The exceptions the embedded operations can raise, with the structured
payloads the source puts into the messages. -/
inductive PyErr : Type where
  /-- `TypeError` naming the offending key type, from `__validate_index` -/
  | invalidKey : PyErr
  /-- `IndexError` saying there are too many indices for the Array -/
  | tooManyIndices : PyErr
  /-- `IndexError` from an out-of-range integer index -/
  | indexOutOfRange : PyErr
  /-- `TypeError` from subscripting a scalar -/
  | notSubscriptable : PyErr
  /-- `IndexError` carrying expected and actual boolean-mask sizes -/
  | boolMaskSize : Nat → Nat → PyErr
  /-- `ValueError` carrying both sequence lengths, from `__validate_seq` -/
  | seqLenMismatch : Nat → Nat → PyErr
  /-- `ValueError` carrying expected and actual sizes, from `__validate_setelem` -/
  | setSizeMismatch : Nat → Nat → PyErr
  /-- `ValueError` from assigning a wrong-sized sequence to an extended slice -/
  | extSliceMismatch : Nat → Nat → PyErr
  /-- `ValueError` for a slice step of zero -/
  | sliceStepZero : PyErr
  /-- `TypeError` from assigning a non-iterable to a slice -/
  | notIterableAssign : PyErr
  /-- `ValueError` from `splitTo` when the split is not an equal division -/
  | splitDiv : PyErr
  /-- `ZeroDivisionError` -/
  | zeroDivision : PyErr
  /-- `TypeError` from an unsupported binary-operator operand combination -/
  | opTypeError : PyErr
deriving DecidableEq, Repr

/-- Which exceptions are Python `TypeError`s (relevant to
`except TypeError` handlers in the source). -/
def PyErr.isTypeError : PyErr → Bool
  | .invalidKey => true
  | .notSubscriptable => true
  | .notIterableAssign => true
  | .opTypeError => true
  | _ => false

/-- `except TypeError` handler body used by the source: convert a
`TypeError` into the too-many-indices `IndexError`, pass every other
exception through. -/
def tyToIdx (e : PyErr) : PyErr :=
  if e.isTypeError then .tooManyIndices else e

/- ### Python slicing -/

/-- Clamp one slice bound for a positive step: negative values count from the
end, and everything is clamped into `[0, n]`, as in CPython. -/
def clampIdx (v : Int) (n : Nat) : Nat :=
  if v < 0 then (v + n).toNat else min v.toNat n

/-- Clamp one slice bound for a negative step, shifted by one: the result
represents `bound + 1`, clamped into `[0, n]` (Python clamps the bound
itself into `[-1, n-1]`). -/
def clampIdxNeg (v : Int) (n : Nat) : Nat :=
  if v < 0 then (v + n + 1).toNat else min (v.toNat + 1) n

/-- Resolved start bound for a positive step. -/
def posStart (start : Option Int) (n : Nat) : Nat :=
  match start with
  | none => 0
  | some v => clampIdx v n

/-- Resolved stop bound for a positive step. -/
def posStop (stop : Option Int) (n : Nat) : Nat :=
  match stop with
  | none => n
  | some v => clampIdx v n

/-- Resolved start bound plus one, for a negative step. -/
def negStart (start : Option Int) (n : Nat) : Nat :=
  match start with
  | none => n
  | some v => clampIdxNeg v n

/-- Resolved stop bound plus one, for a negative step. -/
def negStop (stop : Option Int) (n : Nat) : Nat :=
  match stop with
  | none => 0
  | some v => clampIdxNeg v n

/-- The index list `range(*slice(start, stop, step).indices(n))` for a
nonzero `step`, as computed by CPython.  For `step < 0` the bounds are kept
shifted by one so that everything stays in `Nat`. -/
def sliceCore (start stop : Option Int) (step : Int) (n : Nat) : List Nat :=
  if step > 0 then
    let a := posStart start n
    let b := posStop stop n
    let σ := step.toNat
    (List.range ((b - a + σ - 1) / σ)).map (fun k => a + σ * k)
  else
    let a := negStart start n
    let b := negStop stop n
    let σ := (-step).toNat
    (List.range ((a - b + σ - 1) / σ)).map (fun k => a - 1 - σ * k)

/-- `range(*s.indices(n))` as a list of positions; `ValueError` on step 0. -/
def sliceIdxList (s : Slice) (n : Nat) : Except PyErr (List Nat) :=
  match s.step with
  | none => .ok (sliceCore s.start s.stop 1 n)
  | some st => if st = 0 then .error .sliceStepZero else .ok (sliceCore s.start s.stop st n)

theorem posStop_le (stop : Option Int) (n : Nat) : posStop stop n ≤ n := by
  cases stop with
  | none => simp [posStop]
  | some v =>
    simp only [posStop, clampIdx]
    by_cases hv : v < 0
    · simp only [hv, if_true]; omega
    · simp only [hv, if_false]; omega

theorem negStart_le (start : Option Int) (n : Nat) : negStart start n ≤ n := by
  cases start with
  | none => simp [negStart]
  | some v =>
    simp only [negStart, clampIdxNeg]
    by_cases hv : v < 0
    · simp only [hv, if_true]; omega
    · simp only [hv, if_false]; omega

/-- Arithmetic core of the slicing bound: an index produced with step `σ`
stays below the stop bound. -/
theorem chunk_step_bound {a b σ k : Nat} (hσ : 0 < σ)
    (hk : k < (b - a + σ - 1) / σ) : a + σ * k < b := by
  have hk1 : k + 1 ≤ (b - a + σ - 1) / σ := hk
  have h1 : σ * (k + 1) ≤ σ * ((b - a + σ - 1) / σ) := mul_le_mul_left' hk1 σ
  rw [Nat.mul_succ] at h1
  have h2 : σ * ((b - a + σ - 1) / σ) ≤ b - a + σ - 1 := by
    rw [Nat.mul_comm]; exact Nat.div_mul_le_self _ _
  omega

/-- Every position produced by `sliceCore` is in range. -/
theorem sliceCore_lt (start stop : Option Int) (step : Int) (n : Nat) :
    ∀ i ∈ sliceCore start stop step n, i < n := by
  intro i hi
  unfold sliceCore at hi
  by_cases hstep : step > 0
  · simp only [hstep, if_true, List.mem_map, List.mem_range] at hi
    obtain ⟨k, hk, rfl⟩ := hi
    by_cases hσ : (0 : Nat) < step.toNat
    · have hb := posStop_le stop n
      have := chunk_step_bound (a := posStart start n) (b := posStop stop n) hσ hk
      omega
    · exfalso; omega
  · simp only [hstep, if_false, List.mem_map, List.mem_range] at hi
    obtain ⟨k, hk, rfl⟩ := hi
    by_cases hσ : (0 : Nat) < (-step).toNat
    · have ha := negStart_le start n
      have := chunk_step_bound (a := negStop stop n) (b := negStart start n) hσ
        (by rw [Nat.add_comm (negStart start n - negStop stop n)] at hk ⊢; exact hk)
      omega
    · exfalso
      have : (-step).toNat = 0 := by omega
      rw [this] at hk
      simp at hk

/-- Python `list[slice]` (never raises for a nonzero step). -/
def applySlice (xs : List Val) (s : Slice) : Except PyErr (List Val) :=
  match sliceIdxList s xs.length with
  | .error e => .error e
  | .ok idxs => .ok (idxs.map (fun i => xs.getD i (Val.int 0)))

/-- Plain Python `list.__getitem__` with an integer index: negative indices
count from the end, out-of-range raises `IndexError`. -/
def listGetInt (xs : List Val) (i : Int) : Except PyErr Val :=
  let j := if i < 0 then i + xs.length else i
  if 0 ≤ j ∧ j < xs.length then .ok (xs.getD j.toNat (Val.int 0))
  else .error .indexOutOfRange

/-- `list.__getitem__` with a known-good `Nat` position. -/
def listGetNat (xs : List Val) (i : Nat) : Except PyErr Val :=
  if i < xs.length then .ok (xs.getD i (Val.int 0)) else .error .indexOutOfRange

/- ### Key validation (`__validate_index`) -/

/-- Is this key object an `int`, `bool` or `slice`?  These are the element
kinds `__validate_index` admits inside a sequence key. -/
def isScalarKey : Key → Bool
  | .int _ => true
  | .bool _ => true
  | .slice _ => true
  | _ => false

/-- `__validate_index` from the source: a key must be an `int` (which
includes `bool`) or `slice`, or a `Sequence` (list or tuple) all of whose
elements are `bool`, `int` or `slice`; anything else raises the
invalid-key `TypeError`. -/
def validateIndex : Key → Except PyErr Unit
  | .int _ => .ok ()
  | .bool _ => .ok ()
  | .slice _ => .ok ()
  | .list ks => if ks.all isScalarKey then .ok () else .error .invalidKey
  | .tuple ks => if ks.all isScalarKey then .ok () else .error .invalidKey
  | .other => .error .invalidKey

/-- The key-shape rule of the amended claim, written from its words: a key
is valid iff it is an integer (booleans included), a slice, or a sequence
(list or tuple) each of whose elements is a boolean, integer or slice — in
particular, sequence components inside tuple keys are invalid. -/
def validKeyShapeSpec : Key → Bool
  | .int _ => true
  | .bool _ => true
  | .slice _ => true
  | .list ks => ks.all isScalarKey
  | .tuple ks => ks.all isScalarKey
  | .other => false

/- ### Sizes used as termination measures -/

mutual

/-- Size of a key (tuples and lists count their elements). -/
def ksize : Key → Nat
  | .tuple ks => 1 + ksizeL ks
  | .list ks => 1 + ksizeL ks
  | _ => 0

/-- Size of a list of keys. -/
def ksizeL : List Key → Nat
  | [] => 0
  | k :: ks => 1 + ksize k + ksizeL ks

end

/- ### `__getitem__` -/

/-- Boolean-mask selection: the elements of `xs` at the positions where the
mask holds `True` (the source enumerates the mask and keeps truthy
positions). -/
def maskSelect (xs : List Val) (ks : List Key) : List Val :=
  (xs.zip ks).filterMap (fun p => match p.2 with | .bool true => some p.1 | _ => none)

/-- Mask test used by `__getitem__`: is every element of the sequence key a
`bool`? -/
def isAllBool : List Key → Bool
  | [] => true
  | .bool _ :: ks => isAllBool ks
  | _ => false

/-- One element of a fancy-index selection: `super().__getitem__` applied to
an `int`, `bool` or `slice` element of a sequence key.  A slice element
yields a plain Python list, represented as `Val.arr`. -/
def fancyGetOne (xs : List Val) (k : Key) : Except PyErr Val :=
  match k with
  | .int i => listGetInt xs i
  | .bool b => listGetInt xs (if b then 1 else 0)
  | .slice s =>
    match applySlice xs s with
    | .ok ys => .ok (.arr ys)
    | .error e => .error e
  | _ => .error .invalidKey  -- unreachable after validation; TypeError in Python

/-- `Array(map(super().__getitem__, key))` over a fancy-index key. -/
def fancyEach (xs : List Val) (ks : List Key) : Except PyErr (List Val) :=
  match ks with
  | [] => .ok []
  | k :: ks' =>
    match fancyGetOne xs k with
    | .error e => .error e
    | .ok r =>
      match fancyEach xs ks' with
      | .error e => .error e
      | .ok rs => .ok (r :: rs)

mutual

/-- `Array.__getitem__` on a value.  The recursion only ever subscripts
elements with tuple keys, and a Python scalar subscripted with a tuple
raises `TypeError` (ints are not subscriptable at all, and `str.__getitem__`
rejects tuples), so scalars uniformly raise here.  Arrays validate the key
first and then dispatch. -/
def getitem (v : Val) (key : Key) : Except PyErr Val :=
  match v with
  | .arr xs =>
    match validateIndex key with
    | .error e => .error e
    | .ok _ => getitemArr xs key
  | _ => .error .notSubscriptable
termination_by (ksize key, 2)

/-- Key dispatch of `Array.__getitem__` after validation, clause by clause
from the source. -/
def getitemArr (xs : List Val) (key : Key) : Except PyErr Val :=
  match key with
  | .tuple [] => .error .indexOutOfRange  -- `key[0]` raises IndexError on ()
  | .tuple [k] => getitemArr xs k         -- tuple of length 1: unwrap, re-dispatch
  | .tuple (.int i :: k2 :: ks) =>        -- first component an integer: recurse
    match listGetInt xs i with
    | .error e => .error e
    | .ok e => getitem e (.tuple (k2 :: ks))
  | .tuple (.bool b :: k2 :: ks) =>       -- `isinstance(True, int)` holds in Python
    match listGetInt xs (if b then 1 else 0) with
    | .error e => .error e
    | .ok e => getitem e (.tuple (k2 :: ks))
  | .tuple (.slice s :: k2 :: ks) =>
    -- `try: return Array(e[key[1:]] for e in super().__getitem__(key[0]))
    --  except TypeError: raise IndexError("Too many indices for the Array")`
    match applySlice xs s with
    | .error e => .error (tyToIdx e)
    | .ok sel =>
      match getEach sel (k2 :: ks) with
      | .error e => .error (tyToIdx e)
      | .ok rs => .ok (.arr rs)
  | .tuple (_ :: _ :: _) => .error .tooManyIndices
    -- unreachable after validation: `super().__getitem__` on a non-int,
    -- non-slice first component raises TypeError, caught into IndexError
  | .int i => listGetInt xs i
  | .bool b => listGetInt xs (if b then 1 else 0)
  | .slice s =>
    match applySlice xs s with
    | .ok ys => .ok (.arr ys)
    | .error e => .error e
  | .list ks =>
    if isAllBool ks then
      if ks.length ≠ xs.length then .error (.boolMaskSize xs.length ks.length)
      else .ok (.arr (maskSelect xs ks))
    else
      match fancyEach xs ks with
      | .ok rs => .ok (.arr rs)
      | .error e => .error e
  | .other => .error .invalidKey  -- unreachable after validation
termination_by (ksize key, 1)
decreasing_by all_goals (simp_wf; simp only [Prod.lex_def]; simp [ksize, ksizeL]; try omega)

/-- Apply the remaining tuple key to each selected element, collecting the
results (the generator inside the slice clause of `__getitem__`). -/
def getEach (sel : List Val) (rest : List Key) : Except PyErr (List Val) :=
  match sel with
  | [] => .ok []
  | v :: vs =>
    match getitem v (.tuple rest) with
    | .error e => .error e
    | .ok r =>
      match getEach vs rest with
      | .error e => .error e
      | .ok rs => .ok (r :: rs)
termination_by (ksize (Key.tuple rest), 3 + sel.length)
decreasing_by all_goals (simp_wf; simp only [Prod.lex_def]; simp [ksize, ksizeL]; try omega)

end

/- ### Conversion and iteration -/

/-- `isinstance(e, Iterable)` over this value universe: arrays (standing for
list, tuple, range and Array) and strings are iterable. -/
def isIterable : Val → Bool
  | .arr _ => true
  | .str _ => true
  | _ => false

/-- The elements an iterable value yields; a string yields its characters as
one-character strings. -/
def iterElems : Val → List Val
  | .arr xs => xs
  | .str s => s.data.map (fun c => Val.str (String.mk [c]))
  | v => [v]

mutual

/-- `__convert`: base iterables (list, range, tuple — and `Array` itself, a
list subclass) are rebuilt as Arrays recursively; everything else, strings
included, is returned unchanged.  In this embedding every base iterable is
already a `Val.arr`, so the function is structurally the identity, but it is
kept to mirror the source. -/
def convert : Val → Val
  | .arr xs => .arr (convertL xs)
  | v => v

/-- `__convert` applied to each element of a list. -/
def convertL : List Val → List Val
  | [] => []
  | x :: xs => convert x :: convertL xs

end

/- ### `__setitem__` -/

/-- `__validate_setelem(i, e)`: when the assigned value is iterable, its
length must equal the number of selected targets (else `ValueError`
carrying both counts) and its elements are consumed in order; a scalar
value is repeated for every target. -/
def valSetElem (n : Nat) (e : Val) : Except PyErr (List Val) :=
  if isIterable e then
    if (iterElems e).length ≠ n then .error (.setSizeMismatch n (iterElems e).length)
    else .ok (iterElems e)
  else .ok (List.replicate n e)

/-- Plain `list.__setitem__` with an integer index: negative indices count
from the end, out-of-range raises `IndexError`. -/
def listSetInt (xs : List Val) (i : Int) (v : Val) : Except PyErr (List Val) :=
  let j := if i < 0 then i + xs.length else i
  if 0 ≤ j ∧ j < xs.length then .ok (xs.set j.toNat v)
  else .error .indexOutOfRange

/-- Pairwise position assignment used for extended-slice stores. -/
def setMany (xs : List Val) : List Nat → List Val → List Val
  | [], _ => xs
  | _, [] => xs
  | i :: idxs, v :: vs => setMany (xs.set i v) idxs vs

/-- Plain `list.__setitem__` with a slice key, as in CPython: a contiguous
slice (step `None` or `1`) splices the replacement in, resizing as needed;
an extended slice requires the replacement length to match the selection
exactly (`ValueError` otherwise). -/
def listSetSlice (xs : List Val) (s : Slice) (vals : List Val) : Except PyErr (List Val) :=
  match s.step with
  | none =>
    let a := posStart s.start xs.length
    let b := posStop s.stop xs.length
    .ok (xs.take a ++ vals ++ xs.drop (max a b))
  | some 1 =>
    let a := posStart s.start xs.length
    let b := posStop s.stop xs.length
    .ok (xs.take a ++ vals ++ xs.drop (max a b))
  | some st =>
    if st = 0 then .error .sliceStepZero
    else
      let idxs := sliceCore s.start s.stop st xs.length
      if vals.length ≠ idxs.length then .error (.extSliceMismatch idxs.length vals.length)
      else .ok (setMany xs idxs vals)

/-- One raw `super().__setitem__(_i, _e)` from the sequence-key branch of
`__setitem__`: the position may itself be an `int`, `bool` or `slice`;
values are stored without conversion in this branch. -/
def rawSetOne (xs : List Val) (k : Key) (v : Val) : Except PyErr (List Val) :=
  match k with
  | .int i => listSetInt xs i v
  | .bool b => listSetInt xs (if b then 1 else 0) v
  | .slice s =>
    if isIterable v then listSetSlice xs s (iterElems v)
    else .error .notIterableAssign
  | _ => .error .invalidKey  -- unreachable after validation

/-- The sequence-key branch loop of `__setitem__`
(`for _i, _e in zip(key, ...): super().__setitem__(_i, _e)`); an exception
part-way leaves the earlier assignments in place. -/
def seqSetLoop (xs : List Val) : List Key → List Val → Except (PyErr × List Val) (List Val)
  | [], _ => .ok xs
  | _, [] => .ok xs
  | k :: ks, v :: vs =>
    match rawSetOne xs k v with
    | .error e => .error (e, xs)
    | .ok xs' => seqSetLoop xs' ks vs

/-- The read-only pre-pass of the tuple-slice branch of `__setitem__`
(`for ic in idx: self[ic][key[1:]]`): index each selected row with the rest
of the key, discarding results, stopping at the first exception. -/
def getPass (xs : List Val) (rest : List Key) : List Nat → Option PyErr
  | [] => none
  | i :: idxs =>
    match listGetNat xs i with
    | .error e => some e
    | .ok v =>
      match getitem v (.tuple rest) with
      | .error e => some e
      | .ok _ => getPass xs rest idxs

mutual

/-- `Array.__setitem__` on a value, returning the new state; an exception
carries the (possibly partially mutated) state at the raise.  Scalars do
not support item assignment (`TypeError`).  Arrays validate the key first
and then dispatch. -/
def setitem (v : Val) (key : Key) (e : Val) : Except (PyErr × Val) Val :=
  match v with
  | .arr xs =>
    match validateIndex key with
    | .error er => .error (er, .arr xs)
    | .ok _ =>
      match setitemArr xs key e with
      | .ok xs' => .ok (.arr xs')
      | .error (er, xs') => .error (er, .arr xs')
  | s => .error (.notSubscriptable, s)
termination_by (ksize key, 2)
decreasing_by all_goals (simp_wf; simp only [Prod.lex_def]; simp [ksize, ksizeL]; try omega)

/-- Key dispatch of `Array.__setitem__` after validation, clause by clause
from the source. -/
def setitemArr (xs : List Val) (key : Key) (e : Val) :
    Except (PyErr × List Val) (List Val) :=
  match key with
  | .tuple [] => .error (.indexOutOfRange, xs)  -- `key[0]` raises on ()
  | .tuple [k] => setitemArr xs k e             -- tuple of length 1: unwrap
  | .tuple (.int i :: k2 :: ks) =>
    -- `self[key[0]][key[1:]] = e`: fetch the row and mutate it in place;
    -- the row slot reflects the partial state even on an exception
    match listGetInt xs i with
    | .error er => .error (er, xs)
    | .ok sub =>
      let j := if i < 0 then (i + xs.length).toNat else i.toNat
      match setitem sub (.tuple (k2 :: ks)) e with
      | .ok sub' => .ok (xs.set j sub')
      | .error (er, sub') => .error (er, xs.set j sub')
  | .tuple (.bool b :: k2 :: ks) =>             -- `isinstance(True, int)`
    match listGetInt xs (if b then 1 else 0) with
    | .error er => .error (er, xs)
    | .ok sub =>
      let j := if b then 1 else 0
      match setitem sub (.tuple (k2 :: ks)) e with
      | .ok sub' => .ok (xs.set j sub')
      | .error (er, sub') => .error (er, xs.set j sub')
  | .tuple (.slice s :: k2 :: ks) =>
    -- the try block: index range, read-only pass, zip with the validated
    -- elements, mutation loop; `except TypeError` → too-many-indices
    match sliceIdxList s xs.length with
    | .error er => .error (er, xs)  -- ValueError from `.indices`, not caught
    | .ok idxs =>
      match getPass xs (k2 :: ks) idxs with
      | some er => .error (tyToIdx er, xs)
      | none =>
        match valSetElem idxs.length e with
        | .error er => .error (er, xs)
        | .ok vals => setMutLoop xs idxs vals (k2 :: ks)
  | .tuple (_ :: _ :: _) => .error (.tooManyIndices, xs)  -- unreachable after validation
  | .int i =>
    match listSetInt xs i (convert e) with
    | .ok xs' => .ok xs'
    | .error er => .error (er, xs)
  | .bool b =>
    match listSetInt xs (if b then 1 else 0) (convert e) with
    | .ok xs' => .ok xs'
    | .error er => .error (er, xs)
  | .list ks =>
    match valSetElem ks.length e with
    | .error er => .error (er, xs)
    | .ok vals => seqSetLoop xs ks vals
  | .slice s =>
    if isIterable e then
      match listSetSlice xs s (iterElems (convert e)) with
      | .ok xs' => .ok xs'
      | .error er => .error (er, xs)
    else
      match sliceIdxList s xs.length with
      | .error er => .error (er, xs)
      | .ok idxs =>
        match listSetSlice xs s (List.replicate idxs.length e) with
        | .ok xs' => .ok xs'
        | .error er => .error (er, xs)
  | .other => .error (.invalidKey, xs)  -- unreachable after validation
termination_by (ksize key, 1)
decreasing_by all_goals (simp_wf; simp only [Prod.lex_def]; simp [ksize, ksizeL]; try omega)

/-- The mutation loop of the tuple-slice branch
(`for ic, ie in zip(idx, ...): self[ic][key[1:]] = ie`).  An exception here
is raised after the earlier iterations have already mutated their rows, and
any `TypeError` from inside is converted by the surrounding handler. -/
def setMutLoop (xs : List Val) (idxs : List Nat) (vals : List Val) (rest : List Key) :
    Except (PyErr × List Val) (List Val) :=
  match idxs, vals with
  | [], _ => .ok xs
  | _, [] => .ok xs
  | i :: idxs', v :: vs =>
    match listGetNat xs i with
    | .error er => .error (tyToIdx er, xs)
    | .ok sub =>
      match setitem sub (.tuple rest) v with
      | .ok sub' => setMutLoop (xs.set i sub') idxs' vs rest
      | .error (er, sub') => .error (tyToIdx er, xs.set i sub')
termination_by (ksize (Key.tuple rest), 3 + idxs.length)
decreasing_by all_goals (simp_wf; simp only [Prod.lex_def]; simp [ksize, ksizeL]; try omega)

end

/- ### The broadcasting engine (`__operate`) -/

/-- Python `map(f, xs, ys)` over two fallible iterables: element-wise
application, truncated at the shorter list, first exception wins. -/
def zipWithE (f : Val → Val → Except PyErr Val) :
    List Val → List Val → Except PyErr (List Val)
  | [], _ => .ok []
  | _, [] => .ok []
  | x :: xs, y :: ys =>
    match f x y with
    | .error e => .error e
    | .ok r =>
      match zipWithE f xs ys with
      | .error e => .error e
      | .ok rs => .ok (r :: rs)

/-- `__operate(f, e)` from the source: for an iterable operand,
`__validate_seq` requires `len(e) == self.size` (else `ValueError` carrying
both lengths) and the result is `Array(map(f, self, e))`; a scalar operand
is broadcast with `itertools.repeat`. -/
def operate (f : Val → Val → Except PyErr Val) (xs : List Val) (e : Val) :
    Except PyErr Val :=
  if isIterable e then
    if (iterElems e).length ≠ xs.length then
      .error (.seqLenMismatch xs.length (iterElems e).length)
    else
      match zipWithE f xs (iterElems e) with
      | .ok rs => .ok (.arr rs)
      | .error er => .error er
  else
    match zipWithE f xs (List.replicate xs.length e) with
    | .ok rs => .ok (.arr rs)
    | .error er => .error er

/-- View a Python scalar as an integer where the numeric operators do
(booleans are the integers 0 and 1). -/
def toIntScalar : Val → Option Int
  | .int n => some n
  | .bool b => some (if b then 1 else 0)
  | _ => none

/-- `operator.add` on this value universe: numeric addition (booleans count
as 0/1), string concatenation, and Array concatenation via
`Array.__add__`/`__radd__` (which raise `TypeError` for operands that are
not base iterables); every other combination is a `TypeError`. -/
def elemAdd (a b : Val) : Except PyErr Val :=
  match a, b with
  | .arr xs, .arr ys => .ok (.arr (xs ++ ys))
  | .arr _, _ => .error .opTypeError
  | _, .arr _ => .error .opTypeError
  | .str x, .str y => .ok (.str (x ++ y))
  | a, b =>
    match toIntScalar a, toIntScalar b with
    | some m, some n => .ok (.int (m + n))
    | _, _ => .error .opTypeError

/-- `Array.add`: `self.__operate(operator.add, e)` — the pure element-wise
addition with broadcasting. -/
def add (xs : List Val) (e : Val) : Except PyErr Val :=
  operate elemAdd xs e

/- ### Truthiness and `__bool__` -/

mutual

/-- Python `bool(v)`: nonzero for ints, nonempty for strings, and for
Arrays the `__bool__` of the source, which returns `all(self)`. -/
def truthy : Val → Bool
  | .int n => decide (n ≠ 0)
  | .bool b => b
  | .str s => decide (s.data.length ≠ 0)
  | .arr xs => truthyAll xs

/-- `all(self)`: conjunction of the truthiness of the elements. -/
def truthyAll : List Val → Bool
  | [] => true
  | x :: xs => truthy x && truthyAll xs

end

/-- `Array.__bool__`, observed as (warned, value): it warns exactly when the
Array is empty and always returns `all(self)`.  Warnings possibly issued by
nested coercions inside `all` are not tracked; they do not affect any
value. -/
def arrayBool (xs : List Val) : Bool × Bool :=
  (xs.length == 0, truthyAll xs)

/- ### `__eq__` and hashing -/

/-- Scalar `==` in Python: numeric equality across int/bool, string
equality, `False` across unrelated scalar types. -/
def scalarEqB : Val → Val → Bool
  | .int m, .int n => decide (m = n)
  | .int m, .bool b => decide (m = (if b then 1 else 0))
  | .bool b, .int n => decide ((if b then (1 : Int) else 0) = n)
  | .bool a, .bool b => a == b
  | .str x, .str y => x == y
  | _, _ => false

mutual

/-- Size of a value, counting array slots and string characters, used as a
termination measure for `elemEq`. -/
def vsize : Val → Nat
  | .arr xs => 1 + xs.length + vsizeL xs
  | .str s => s.data.length
  | _ => 0

/-- Sum of the sizes of a list of values. -/
def vsizeL : List Val → Nat
  | [] => 0
  | x :: xs => vsize x + vsizeL xs

end

theorem vsizeL_strElems (l : List Char) :
    vsizeL (l.map (fun c => Val.str (String.mk [c]))) = l.length := by
  induction l with
  | nil => simp [vsizeL]
  | cons c cs ih => simp [vsizeL, vsize, ih]; omega

theorem vsizeL_replicate (n : Nat) (v : Val) :
    vsizeL (List.replicate n v) = n * vsize v := by
  induction n with
  | zero => simp [vsizeL]
  | succ m ih => simp [List.replicate_succ, vsizeL, ih]; ring

mutual

/-- `operator.eq` on this value universe.  `Array.__eq__` is
`__operate(operator.eq, e)`; a scalar on the left of an Array goes through
Python reflected dispatch (`int.__eq__`/`str.__eq__` return NotImplemented
against a list subclass) and lands in `Array.__eq__` with the same
broadcast. -/
def elemEq : Val → Val → Except PyErr Val
  | .arr xs, e => eqOperate xs e
  | .int m, .arr ys => eqOperate ys (.int m)
  | .bool b, .arr ys => eqOperate ys (.bool b)
  | .str s, .arr ys => eqOperate ys (.str s)
  | a, b => .ok (.bool (scalarEqB a b))
termination_by a b => 4 * (vsize a + vsize b) + 2
decreasing_by all_goals (simp [vsize, vsizeL, iterElems, vsizeL_strElems, vsizeL_replicate]; try omega)

/-- `__operate(operator.eq, e)`, inlined so the recursion is visible: the
iterable cases validate lengths first; scalars broadcast. -/
def eqOperate (xs : List Val) (e : Val) : Except PyErr Val :=
  match e with
  | .arr es =>
    if es.length ≠ xs.length then .error (.seqLenMismatch xs.length es.length)
    else
      match eqZip xs es with
      | .ok rs => .ok (.arr rs)
      | .error er => .error er
  | .str s =>
    if (iterElems (.str s)).length ≠ xs.length then
      .error (.seqLenMismatch xs.length (iterElems (.str s)).length)
    else
      match eqZip xs (iterElems (.str s)) with
      | .ok rs => .ok (.arr rs)
      | .error er => .error er
  | .int m =>
    match eqZip xs (List.replicate xs.length (.int m)) with
    | .ok rs => .ok (.arr rs)
    | .error er => .error er
  | .bool b =>
    match eqZip xs (List.replicate xs.length (.bool b)) with
    | .ok rs => .ok (.arr rs)
    | .error er => .error er
termination_by 4 * (1 + xs.length + vsizeL xs + vsize e) + 1
decreasing_by all_goals (simp [vsize, vsizeL, iterElems, vsizeL_strElems, vsizeL_replicate]; try omega)

/-- `map(operator.eq, xs, ys)`, element-wise with the first exception
propagated. -/
def eqZip : List Val → List Val → Except PyErr (List Val)
  | [], _ => .ok []
  | _, [] => .ok []
  | x :: xs, y :: ys =>
    match elemEq x y with
    | .error e => .error e
    | .ok r =>
      match eqZip xs ys with
      | .error e => .error e
      | .ok rs => .ok (r :: rs)
termination_by xs ys => 4 * (xs.length + vsizeL xs + vsizeL ys) + 3
decreasing_by all_goals (simp [vsize, vsizeL, iterElems, vsizeL_strElems, vsizeL_replicate]; try omega)

end

/-- Truthiness of `a == b`: `operator.eq` followed by boolean coercion of
the result, which is how the spec's recursive element-wise equality reads
out of the source. -/
def eqTruth (a b : Val) : Except PyErr Bool :=
  match elemEq a b with
  | .ok v => .ok (truthy v)
  | .error er => .error er

mutual

/-- Model of `Array.__hash__`, i.e. `hash(self.toTuple)`: a deterministic
structural combination of element hashes (CPython's exact constants are
irrelevant to the spec; determinism and structure-dependence are what
matter).  Booleans hash like their integer values, as in Python. -/
def pyHash : Val → Nat
  | .int n => 2 * n.natAbs + (if n < 0 then 1 else 0)
  | .bool b => if b then 2 else 0
  | .str s => s.data.foldr (fun c h => 31 * h + c.toNat + 7) 11
  | .arr xs => pyHashL xs

/-- Tuple-hash model over the element list. -/
def pyHashL : List Val → Nat
  | [] => 3
  | x :: xs => 31 * pyHash x + 7 * pyHashL xs + 1

end

/- ### Constructor, insertion operations, `splitTo` -/

/-- `Array.__init__`: exactly one iterable argument is unpacked as the
element list (`args = list(args[0])`); otherwise the arguments are the
elements.  If any element is a base iterable all elements are passed
through `__convert`; since `__convert` is the identity on the rest, the
net effect is `__convert` on every element either way. -/
def arrayNew (args : List Val) : Val :=
  match args with
  | [a] => if isIterable a then .arr (convertL (iterElems a)) else .arr (convertL [a])
  | _ => .arr (convertL args)

/-- `Array.append`: `super().append(self.__convert(e))`. -/
def append (xs : List Val) (e : Val) : List Val :=
  xs ++ [convert e]

/-- `Array.prepend`: `super().insert(0, self.__convert(e))`. -/
def prepend (xs : List Val) (e : Val) : List Val :=
  convert e :: xs

/-- The non-sequence case of `Array.insert`:
`super().insert(i, self.__convert(e))`; Python `list.insert` clamps the
position into range. -/
def insertAt (xs : List Val) (i : Int) (e : Val) : List Val :=
  let j : Nat := if i < 0 then (i + xs.length).toNat else min i.toNat xs.length
  xs.take j ++ [convert e] ++ xs.drop j

/-- `Array.splitTo(n)`: `self.size % n != 0` raises the equal-division
`ValueError`; otherwise the result is the `n` chunks
`self[d*i : d*(i+1)]` with `d = self.size // n`.  (`n = 0` raises
`ZeroDivisionError` at the `%`.) -/
def splitTo (xs : List Val) (n : Nat) : Except PyErr (List (List Val)) :=
  if n = 0 then .error .zeroDivision
  else if xs.length % n ≠ 0 then .error .splitDiv
  else
    let d := xs.length / n
    .ok ((List.range n).map (fun i => (xs.drop (d * i)).take d))

/- ### Shared concrete example -/

/-- The nested example container `Container(Container(1,2,3), Container(4,5,6))`
used by the spec's indexing test properties. -/
def c2ex : Val :=
  .arr [.arr [.int 1, .int 2, .int 3], .arr [.int 4, .int 5, .int 6]]

/- ### Supporting lemmas -/

/-- Index-wise characterisation of a successful `zipWithE`. -/
theorem zipWithE_ok_spec (f : Val → Val → Except PyErr Val) (xs : List Val) :
    ∀ (ys rs : List Val), zipWithE f xs ys = .ok rs → xs.length = ys.length →
      rs.length = xs.length ∧
      ∀ i (hx : i < xs.length) (hy : i < ys.length) (hr : i < rs.length),
        f (xs.get ⟨i, hx⟩) (ys.get ⟨i, hy⟩) = .ok (rs.get ⟨i, hr⟩) := by
  induction xs with
  | nil =>
    intro ys rs h hlen
    cases ys with
    | nil =>
      simp only [zipWithE] at h
      cases h
      exact ⟨rfl, fun i hx _ _ => absurd (by simpa using hx) (Nat.not_lt_zero i)⟩
    | cons y ys => simp at hlen
  | cons x xs ih =>
    intro ys rs h hlen
    cases ys with
    | nil => simp at hlen
    | cons y ys =>
      simp only [zipWithE] at h
      cases hf : f x y with
      | error e => rw [hf] at h; cases h
      | ok r =>
        rw [hf] at h
        cases hz : zipWithE f xs ys with
        | error e => rw [hz] at h; cases h
        | ok rs' =>
          rw [hz] at h
          simp only [Except.ok.injEq] at h
          subst h
          have hlen' : xs.length = ys.length := by simpa using hlen
          obtain ⟨hl, hfun⟩ := ih ys rs' hz hlen'
          refine ⟨by simp [hl], ?_⟩
          intro i hx hy hr
          cases i with
          | zero => simpa using hf
          | succ j =>
            simpa using hfun j (by simpa using hx) (by simpa using hy) (by simpa using hr)

/- ### C3 -/

/-- C3: for Containers `a`, `b` of equal length, each element of
`a.add(b)` is `a[i] + b[i]`; for a scalar `s`, each element of `a.add(s)`
is `a[i] + s`.  (`add` is pure: it builds a new element list and, the
embedding being functional, the receiver is untouched.) -/
theorem C3_add_elementwise :
    (∀ (xs ys rs : List Val), xs.length = ys.length →
       add xs (.arr ys) = .ok (.arr rs) →
       rs.length = xs.length ∧
       ∀ i (hx : i < xs.length) (hy : i < ys.length) (hr : i < rs.length),
         elemAdd (xs.get ⟨i, hx⟩) (ys.get ⟨i, hy⟩) = .ok (rs.get ⟨i, hr⟩)) ∧
    (∀ (xs rs : List Val) (s : Val), isIterable s = false →
       add xs s = .ok (.arr rs) →
       rs.length = xs.length ∧
       ∀ i (hx : i < xs.length) (hr : i < rs.length),
         elemAdd (xs.get ⟨i, hx⟩) s = .ok (rs.get ⟨i, hr⟩)) := by
  constructor
  · intro xs ys rs hlen h
    simp only [add, operate, isIterable, iterElems, if_true] at h
    rw [if_neg (by omega)] at h
    cases hz : zipWithE elemAdd xs ys with
    | error e => rw [hz] at h; cases h
    | ok rs' =>
      rw [hz] at h
      simp only [Except.ok.injEq, Val.arr.injEq] at h
      subst h
      exact zipWithE_ok_spec elemAdd xs ys rs' hz hlen
  · intro xs rs s hs h
    simp only [add, operate, hs, Bool.false_eq_true, if_false] at h
    cases hz : zipWithE elemAdd xs (List.replicate xs.length s) with
    | error e => rw [hz] at h; cases h
    | ok rs' =>
      rw [hz] at h
      simp only [Except.ok.injEq, Val.arr.injEq] at h
      subst h
      obtain ⟨hl, hfun⟩ :=
        zipWithE_ok_spec elemAdd xs (List.replicate xs.length s) rs' hz (by simp)
      refine ⟨hl, ?_⟩
      intro i hx hr
      have := hfun i hx (by simpa using hx) hr
      simpa [List.get_replicate] using this

/-- C3 witness: the theorem applied at `Container(1,2).add(Container(10,20))`
and at `Container(1,2).add(5)`. -/
theorem C3_witness :
    elemAdd (Val.int 1) (Val.int 10) = .ok (Val.int 11) ∧
    elemAdd (Val.int 2) (Val.int 5) = .ok (Val.int 7) :=
  ⟨(C3_add_elementwise.1 [Val.int 1, Val.int 2] [Val.int 10, Val.int 20]
      [Val.int 11, Val.int 22] rfl rfl).2 0 (by decide) (by decide) (by decide),
   (C3_add_elementwise.2 [Val.int 1, Val.int 2] [Val.int 6, Val.int 7]
      (Val.int 5) rfl rfl).2 1 (by decide) (by decide)⟩

/- ### C4 -/

/-- C4: every element-wise broadcasting operation routed through
`__operate` fails on an iterable operand of mismatched length with the
`ValueError` carrying both lengths, producing no result Container; in
particular `Container(1,2,3).add(Container(1,2))` fails reporting 3 and 2. -/
theorem C4_broadcast_mismatch :
    (∀ (f : Val → Val → Except PyErr Val) (xs : List Val) (e : Val),
       isIterable e = true → (iterElems e).length ≠ xs.length →
       operate f xs e = .error (.seqLenMismatch xs.length (iterElems e).length)) ∧
    add [Val.int 1, Val.int 2, Val.int 3] (.arr [Val.int 1, Val.int 2]) =
      .error (.seqLenMismatch 3 2) := by
  constructor
  · intro f xs e hit hlen
    simp [operate, hit, hlen]
  · rfl

/-- C4 witness: the universal part applied at a concrete mismatch. -/
theorem C4_witness :
    operate elemAdd [Val.int 1] (Val.arr []) = .error (.seqLenMismatch 1 0) :=
  C4_broadcast_mismatch.1 elemAdd [Val.int 1] (Val.arr []) rfl (by simp [iterElems])

/- ### C8 -/

/-- `all(self)` is the AND-reduction over the element truthiness. -/
theorem truthyAll_eq_foldr (xs : List Val) :
    truthyAll xs = xs.foldr (fun v acc => truthy v && acc) true := by
  induction xs with
  | nil => rfl
  | cons x xs ih => simp [truthyAll, ih]

/-- C8: `Array.__bool__` returns the AND-reduction over the elements and
warns exactly when the Array is empty, in which case it still returns the
conventional `True` (the AND-reduction of no elements) to the caller. -/
theorem C8_bool_coercion :
    (∀ xs : List Val,
       arrayBool xs = (xs.isEmpty, xs.foldr (fun v acc => truthy v && acc) true)) ∧
    arrayBool ([] : List Val) = (true, true) := by
  constructor
  · intro xs
    unfold arrayBool
    rw [truthyAll_eq_foldr]
    cases xs <;> simp [List.isEmpty]
  · rfl

/- ### C9 -/

/-- Splitting a list of length `d * k` into `k` chunks of `d` gives chunks
of length `d` whose concatenation is the original list. -/
theorem chunks_join (d : Nat) :
    ∀ (k : Nat) (xs : List Val), xs.length = d * k →
      ((List.range k).map (fun i => (xs.drop (d * i)).take d)).flatten = xs ∧
      ∀ p ∈ (List.range k).map (fun i => (xs.drop (d * i)).take d), p.length = d := by
  intro k
  induction k with
  | zero =>
    intro xs h
    have : xs = [] := List.length_eq_zero.mp (by omega)
    subst this
    simp
  | succ m ih =>
    intro xs h
    have hdm : (xs.drop d).length = d * m := by
      simp only [List.length_drop]
      rw [h, Nat.mul_succ]
      omega
    obtain ⟨hjoin, hlens⟩ := ih (xs.drop d) hdm
    have hmap : (List.range (m + 1)).map (fun i => (xs.drop (d * i)).take d) =
        (xs.take d) :: (List.range m).map (fun i => ((xs.drop d).drop (d * i)).take d) := by
      rw [List.range_succ_eq_map, List.map_cons, List.map_map]
      simp only [Nat.mul_zero, List.drop_zero]
      congr 1
      apply List.map_congr_left
      intro i _
      simp only [Function.comp_apply, List.drop_drop]
      congr 2
      rw [Nat.mul_succ]
      omega
    rw [hmap]
    constructor
    · simp only [List.flatten_cons]
      rw [hjoin, List.take_append_drop]
    · intro p hp
      rcases List.mem_cons.mp hp with hhead | htail
      · subst hhead
        rw [List.length_take]
        have : d * (m + 1) = d + d * m := by rw [Nat.mul_succ]; omega
        omega
      · exact hlens p htail

/-- C9: for a positive `n`, `splitTo(n)` fails with the equal-division
error when `n` does not divide the length, and otherwise returns exactly
`n` chunks of length `len/n` whose concatenation is the original
Container. -/
theorem C9_splitTo (xs : List Val) (n : Nat) (hn : 0 < n) :
    (xs.length % n ≠ 0 → splitTo xs n = .error .splitDiv) ∧
    (xs.length % n = 0 →
      ∃ parts, splitTo xs n = .ok parts ∧ parts.length = n ∧
        (∀ p ∈ parts, p.length = xs.length / n) ∧ parts.flatten = xs) := by
  constructor
  · intro hmod
    simp [splitTo, Nat.pos_iff_ne_zero.mp hn, hmod]
  · intro hmod
    have hlen : xs.length = (xs.length / n) * n :=
      (Nat.div_mul_cancel (Nat.dvd_of_mod_eq_zero hmod)).symm
    obtain ⟨hjoin, hlens⟩ := chunks_join (xs.length / n) n xs (by omega)
    refine ⟨(List.range n).map (fun i => (xs.drop (xs.length / n * i)).take (xs.length / n)),
      ?_, by simp, hlens, hjoin⟩
    simp [splitTo, Nat.pos_iff_ne_zero.mp hn, hmod]

/-- C9 witness: the theorem applied at a non-dividing and at a dividing
split. -/
theorem C9_witness :
    splitTo [Val.int 1, Val.int 2, Val.int 3, Val.int 4, Val.int 5] 2 = .error .splitDiv ∧
    ∃ parts, splitTo [Val.int 1, Val.int 2, Val.int 3, Val.int 4] 2 = .ok parts ∧
      parts.length = 2 ∧
      (∀ p ∈ parts, p.length = [Val.int 1, Val.int 2, Val.int 3, Val.int 4].length / 2) ∧
      parts.flatten = [Val.int 1, Val.int 2, Val.int 3, Val.int 4] :=
  ⟨(C9_splitTo [Val.int 1, Val.int 2, Val.int 3, Val.int 4, Val.int 5] 2 (by decide)).1
      (by decide),
   (C9_splitTo [Val.int 1, Val.int 2, Val.int 3, Val.int 4] 2 (by decide)).2 (by decide)⟩

/- ### C10 -/

/-- C10: on a non-empty Container, `c[[]]` does not select an empty
sub-Container: the empty sequence key vacuously counts as a boolean mask
and fails with the mask-size `IndexError` reporting `len(c)` and 0. -/
theorem C10_empty_key_is_mask (xs : List Val) (h : xs ≠ []) :
    getitem (.arr xs) (.list []) = .error (.boolMaskSize xs.length 0) := by
  have hx : (0 : Nat) ≠ xs.length := by
    intro h0
    exact h (List.length_eq_zero.mp h0.symm)
  simp [getitem, validateIndex, getitemArr, isAllBool, hx]

/-- C10 witness: the theorem applied to `Container(5)`. -/
theorem C10_witness :
    getitem (.arr [Val.int 5]) (.list []) = .error (.boolMaskSize 1 0) :=
  C10_empty_key_is_mask [Val.int 5] (by simp)

/- ### C7 -/

/-- C7 counterexample: constructing from exactly one string argument
explodes the string into its characters — `Array("ab")` has the two
elements `'a'` and `'b'`, not the single scalar `"ab"` — because the
single-iterable unpacking rule of `__init__` applies to strings too. -/
theorem C7_counterexample :
    arrayNew [Val.str "ab"] = .arr [Val.str "a", Val.str "b"] ∧
    arrayNew [Val.str "ab"] ≠ .arr [Val.str "ab"] := by
  have h1 : arrayNew [Val.str "ab"] = .arr [Val.str "a", Val.str "b"] := rfl
  refine ⟨h1, ?_⟩
  rw [h1]
  intro h
  simp only [Val.arr.injEq, List.cons.injEq] at h
  obtain ⟨h2, -⟩ := h
  exact absurd (Val.str.inj h2) (by decide)

/-- C7 amended: a string value injected through the conversion layer —
`append`, `prepend`, `insert`, positional assignment, conversion of nested
sequences, and construction from zero or several arguments — is stored
unchanged as a single scalar element and never exploded; the one exception
is construction from exactly one argument that is a string, where the
single-iterable unpacking rule of `__init__` applies and the characters
become the elements. -/
theorem C7_amended_strings :
    (∀ s : String, convert (.str s) = .str s) ∧
    (∀ (xs : List Val) (s : String), append xs (.str s) = xs ++ [.str s]) ∧
    (∀ (xs : List Val) (s : String), prepend xs (.str s) = .str s :: xs) ∧
    (∀ (xs : List Val) (i : Int) (s : String), ∃ j,
       insertAt xs i (.str s) = xs.take j ++ [.str s] ++ xs.drop j) ∧
    (∀ (xs : List Val) (i : Nat) (s : String), i < xs.length →
       setitem (.arr xs) (.int i) (.str s) = .ok (.arr (xs.set i (.str s)))) ∧
    (∀ (a b : Val), arrayNew [a, b] = .arr [convert a, convert b]) ∧
    (∀ (vs : List Val) (s : String),
       convert (.arr (.str s :: vs)) = .arr (.str s :: convertL vs)) ∧
    (∀ s : String,
       arrayNew [.str s] = .arr (s.data.map (fun c => Val.str (String.mk [c])))) := by
  refine ⟨fun s => rfl, fun xs s => rfl, fun xs s => rfl, ?_, ?_, fun a b => rfl, ?_, ?_⟩
  · intro xs i s
    exact ⟨_, rfl⟩
  · intro xs i s h
    have h0 : ¬((i : Int) < 0) := by omega
    have h1 : 0 ≤ (i : Int) ∧ (i : Int) < (xs.length : Int) := by omega
    simp [setitem, validateIndex, setitemArr, listSetInt, h0, h1, convert]
  · intro vs s
    simp [convert, convertL]
  · intro s
    have : ∀ l : List Char,
        convertL (l.map (fun c => Val.str (String.mk [c]))) =
          l.map (fun c => Val.str (String.mk [c])) := by
      intro l
      induction l with
      | nil => rfl
      | cons c cs ih => simp [convertL, convert, ih]
    simp [arrayNew, isIterable, iterElems, this]

/-- C7 witness: the positional-assignment clause applied concretely. -/
theorem C7_witness :
    setitem (.arr [Val.int 1, Val.int 2]) (.int 1) (.str "xy") =
      .ok (.arr [Val.int 1, Val.str "xy"]) :=
  C7_amended_strings.2.2.2.2.1 [Val.int 1, Val.int 2] 1 "xy" (by decide)

/- ### C5 -/

/-- C5 counterexample: a tuple key containing a sequence component — the
claim's "boolean mask or integer sequence per nesting level" — is rejected
by `__validate_index`, because a tuple is validated as a sequence whose
elements must each be `bool`, `int` or `slice`; `c[:, [0, 1]]` raises the
invalid-key `TypeError` instead of selecting. -/
theorem C5_counterexample :
    validateIndex (.tuple [.slice ⟨none, none, none⟩, .list [.int 0, .int 1]]) =
      .error .invalidKey ∧
    getitem c2ex (.tuple [.slice ⟨none, none, none⟩, .list [.int 0, .int 1]]) =
      .error .invalidKey := by
  constructor
  · rfl
  · simp [getitem, c2ex, validateIndex, isScalarKey]

/-- C5 amended: validation accepts integers, slices, and sequences of
booleans/integers/slices; a tuple is validated by the same sequence rule,
so each tuple component must itself be a boolean, integer or slice (nested
sequence components are invalid); every invalid key fails with the
invalid-key error, and for `set` it fails before any mutation — the
returned state is the untouched container. -/
theorem C5_amended_validation :
    (∀ k : Key, validateIndex k = .ok () ↔ validKeyShapeSpec k = true) ∧
    (∀ k : Key, validateIndex k ≠ .ok () → validateIndex k = .error .invalidKey) ∧
    (∀ (xs : List Val) (k : Key), validateIndex k = .error .invalidKey →
       getitem (.arr xs) k = .error .invalidKey) ∧
    (∀ (xs : List Val) (k : Key) (e : Val), validateIndex k = .error .invalidKey →
       setitem (.arr xs) k e = .error (.invalidKey, .arr xs)) := by
  refine ⟨?_, ?_, ?_, ?_⟩
  · intro k
    cases k <;> simp [validateIndex, validKeyShapeSpec]
  · intro k
    cases k <;> simp [validateIndex]
  · intro xs k h
    simp [getitem, h]
  · intro xs k e h
    simp [setitem, h]

/-- C5 witness: the amended rule applied at a valid integer key and at the
invalid key `other`, confirming the unmutated error state for `set`. -/
theorem C5_witness :
    validateIndex (.int 5) = .ok () ∧
    setitem (.arr [Val.int 1]) .other (Val.int 0) = .error (.invalidKey, .arr [Val.int 1]) :=
  ⟨(C5_amended_validation.1 (.int 5)).mpr rfl,
   C5_amended_validation.2.2.2 [Val.int 1] .other (Val.int 0) rfl⟩

/- ### C2 -/

/-- C2 counterexample: a tuple key whose first component is a sequence does
not "apply the remaining tuple to each selected sub-element" — it is
rejected by validation before dispatch: `c[[0,1], 0]` raises the invalid-key
`TypeError` rather than returning `Container(1, 4)`. -/
theorem C2_counterexample :
    getitem c2ex (.tuple [.list [.int 0, .int 1], .int 0]) = .error .invalidKey ∧
    getitem c2ex (.tuple [.list [.int 0, .int 1], .int 0]) ≠
      .ok (.arr [Val.int 1, Val.int 4]) := by
  have h1 : getitem c2ex (.tuple [.list [.int 0, .int 1], .int 0]) = .error .invalidKey := by
    simp [getitem, c2ex, validateIndex, isScalarKey]
  exact ⟨h1, by simp [h1]⟩

/-- C2 amended: the three concrete tuple-indexing examples hold, a tuple
key with an integer first component recurses into the selected sub-element
with the rest of the tuple, and a tuple key with a slice first component
applies the remaining tuple to each selected sub-element collecting the
results into a new Container, turning any `TypeError` (in particular the
one from a sub-element of insufficient depth) into the too-many-indices
`IndexError`; a sequence as a tuple component is rejected by validation, so
only integers, booleans and slices can head a tuple key. -/
theorem C2_amended_tuple_get :
    getitem c2ex (.tuple [.int 0, .int 1]) = .ok (.int 2) ∧
    getitem c2ex (.tuple [.slice ⟨none, none, none⟩, .int 0]) =
      .ok (.arr [Val.int 1, Val.int 4]) ∧
    getitem c2ex (.tuple [.slice ⟨none, none, none⟩, .slice ⟨some 0, some 2, none⟩]) =
      .ok (.arr [.arr [Val.int 1, Val.int 2], .arr [Val.int 4, Val.int 5]]) ∧
    (∀ (xs : List Val) (i : Int) (k2 : Key) (ks : List Key),
       getitemArr xs (.tuple (.int i :: k2 :: ks)) =
         match listGetInt xs i with
         | .error er => .error er
         | .ok e => getitem e (.tuple (k2 :: ks))) ∧
    (∀ (xs : List Val) (s : Slice) (k2 : Key) (ks : List Key),
       getitemArr xs (.tuple (.slice s :: k2 :: ks)) =
         match applySlice xs s with
         | .error e => .error (tyToIdx e)
         | .ok sel =>
           match getEach sel (k2 :: ks) with
           | .error e => .error (tyToIdx e)
           | .ok rs => .ok (.arr rs)) ∧
    getitem (.arr [Val.int 1, Val.int 2]) (.tuple [.slice ⟨none, none, none⟩, .int 0]) =
      .error .tooManyIndices := by
  refine ⟨?_, ?_, ?_, ?_, ?_, ?_⟩
  · simp [c2ex, getitem, getitemArr, validateIndex, isScalarKey, listGetInt]
  · simp [c2ex, getitem, getitemArr, getEach, validateIndex, isScalarKey, listGetInt,
      applySlice, sliceIdxList, sliceCore, posStart, posStop, clampIdx, List.range_succ,
      tyToIdx]
  · simp [c2ex, getitem, getitemArr, getEach, validateIndex, isScalarKey, listGetInt,
      applySlice, sliceIdxList, sliceCore, posStart, posStop, clampIdx, List.range_succ,
      tyToIdx]
  · intro xs i k2 ks
    rw [getitemArr]
  · intro xs s k2 ks
    rw [getitemArr]
  · simp [getitem, getitemArr, getEach, validateIndex, isScalarKey, listGetInt,
      applySlice, sliceIdxList, sliceCore, posStart, posStop, clampIdx, List.range_succ,
      tyToIdx, PyErr.isTypeError]

/-- C2 witness: the integer-recursion clause applied concretely. -/
theorem C2_witness :
    getitemArr [Val.arr [Val.int 7]] (.tuple [.int 0, .int 0]) = .ok (Val.int 7) := by
  rw [C2_amended_tuple_get.2.2.2.1 [Val.arr [Val.int 7]] 0 (.int 0) []]
  simp [listGetInt, getitem, validateIndex, isScalarKey, getitemArr]

/- ### C1 -/

/-- C1: evaluating the spec's own all-or-nothing example
`c[:, 0:2] = Container(Container(9,9), Container(9,9,9))` on
`c = Container(Container(1,2,3), Container(4,5,6))`: the call does not fail
at all — the pre-mutation pass only checks that each selected row can be
indexed, row replacements of mismatched length are silently accepted by
slice resizing, and the call returns with both rows mutated (the second
grown to length 4).  Moreover, on a three-level container a length
mismatch in the second row's deeper assignment raises only after the first
row has already been rewritten: the error state differs from the initial
container, refuting the all-or-nothing contract. -/
theorem C1_set_not_all_or_nothing :
    setitem c2ex (.tuple [.slice ⟨none, none, none⟩, .slice ⟨some 0, some 2, none⟩])
        (.arr [.arr [Val.int 9, Val.int 9], .arr [Val.int 9, Val.int 9, Val.int 9]]) =
      .ok (.arr [.arr [Val.int 9, Val.int 9, Val.int 3],
                 .arr [Val.int 9, Val.int 9, Val.int 9, Val.int 6]]) ∧
    setitem
        (.arr [.arr [.arr [Val.int 1], .arr [Val.int 2]],
               .arr [.arr [Val.int 3], .arr [Val.int 4]]])
        (.tuple [.slice ⟨none, none, none⟩, .slice ⟨none, none, none⟩,
                 .slice ⟨none, none, none⟩])
        (.arr [.arr [.arr [Val.int 7], .arr [Val.int 7]],
               .arr [.arr [Val.int 8], .arr [Val.int 8], .arr [Val.int 8]]]) =
      .error (.setSizeMismatch 2 3,
        .arr [.arr [.arr [Val.int 7], .arr [Val.int 7]],
              .arr [.arr [Val.int 3], .arr [Val.int 4]]]) := by
  constructor
  · simp [c2ex, setitem, setitemArr, setMutLoop, getPass, validateIndex, isScalarKey,
      listGetInt, listGetNat, listSetInt, listSetSlice, valSetElem, isIterable, iterElems,
      convert, convertL, getitem, getitemArr, getEach, applySlice, sliceIdxList, sliceCore,
      posStart, posStop, clampIdx, List.range_succ, tyToIdx, setMany, PyErr.isTypeError]
  · simp [setitem, setitemArr, setMutLoop, getPass, validateIndex, isScalarKey,
      listGetInt, listGetNat, listSetInt, listSetSlice, valSetElem, isIterable, iterElems,
      convert, convertL, getitem, getitemArr, getEach, applySlice, sliceIdxList, sliceCore,
      posStart, posStop, clampIdx, List.range_succ, tyToIdx, setMany, PyErr.isTypeError]

/- ### C6 -/

/-- A successful element-wise `==` whose resulting Array is truthy is the
same thing as every positional comparison being truthy. -/
theorem eqZip_truth_iff (xs : List Val) :
    ∀ ys : List Val, xs.length = ys.length →
      ((∃ rs, eqZip xs ys = .ok rs ∧ truthyAll rs = true) ↔
       (∀ i (hx : i < xs.length) (hy : i < ys.length),
         eqTruth (xs.get ⟨i, hx⟩) (ys.get ⟨i, hy⟩) = .ok true)) := by
  induction xs with
  | nil =>
    intro ys hlen
    cases ys with
    | nil =>
      constructor
      · intro _ i hx
        exact absurd (by simpa using hx) (Nat.not_lt_zero i)
      · intro _
        exact ⟨[], by simp [eqZip], rfl⟩
    | cons y ys => simp at hlen
  | cons x xs ih =>
    intro ys hlen
    cases ys with
    | nil => simp at hlen
    | cons y ys =>
      have hlen' : xs.length = ys.length := by simpa using hlen
      constructor
      · rintro ⟨rs, hz, ht⟩ i hx hy
        simp only [eqZip] at hz
        cases he : elemEq x y with
        | error e => rw [he] at hz; cases hz
        | ok r =>
          rw [he] at hz
          cases hz2 : eqZip xs ys with
          | error e => rw [hz2] at hz; cases hz
          | ok rs' =>
            rw [hz2] at hz
            simp only [Except.ok.injEq] at hz
            subst hz
            simp only [truthyAll, Bool.and_eq_true] at ht
            cases i with
            | zero => simp [eqTruth, he, ht.1]
            | succ j =>
              have := (ih ys hlen').mp ⟨rs', hz2, ht.2⟩ j
                (by simpa using hx) (by simpa using hy)
              simpa using this
      · intro hall
        have hhead : eqTruth x y = .ok true := by
          simpa using hall 0 (by simp) (by simp)
        have htail := (ih ys hlen').mpr
          (fun i hx hy => by simpa using hall (i + 1) (by simpa using hx) (by simpa using hy))
        obtain ⟨rs', hz', ht'⟩ := htail
        cases he : elemEq x y with
        | error e => rw [eqTruth, he] at hhead; cases hhead
        | ok r =>
          rw [eqTruth, he] at hhead
          simp only [Except.ok.injEq] at hhead
          exact ⟨r :: rs', by simp [eqZip, he, hz'], by simp [truthyAll, hhead, ht']⟩

/-- The spec's recursive equality decomposition for two Containers. -/
theorem eqTruth_arr_iff (xs ys : List Val) :
    eqTruth (.arr xs) (.arr ys) = .ok true ↔
      xs.length = ys.length ∧
      ∀ i (hx : i < xs.length) (hy : i < ys.length),
        eqTruth (xs.get ⟨i, hx⟩) (ys.get ⟨i, hy⟩) = .ok true := by
  by_cases hlen : ys.length = xs.length
  · constructor
    · intro h
      refine ⟨hlen.symm, ?_⟩
      rw [eqTruth, elemEq, eqOperate, if_neg (by omega)] at h
      cases hz : eqZip xs ys with
      | error e => rw [hz] at h; cases h
      | ok rs =>
        rw [hz] at h
        simp only [Except.ok.injEq] at h
        exact (eqZip_truth_iff xs ys hlen.symm).mp ⟨rs, hz, by simpa [truthy] using h⟩
    · rintro ⟨hlen2, hall⟩
      obtain ⟨rs, hz, ht⟩ := (eqZip_truth_iff xs ys hlen2).mpr hall
      rw [eqTruth, elemEq, eqOperate, if_neg (by omega), hz]
      simp [truthy, ht]
  · constructor
    · intro h
      rw [eqTruth, elemEq, eqOperate, if_pos (by omega)] at h
      cases h
    · rintro ⟨hlen2, -⟩
      omega

theorem vsize_mem_le {x : Val} : ∀ {xs : List Val}, x ∈ xs → vsize x ≤ vsizeL xs := by
  intro xs
  induction xs with
  | nil => intro h; cases h
  | cons y ys ih =>
    intro h
    rcases List.mem_cons.mp h with rfl | hm
    · simp [vsizeL]
    · have := ih hm
      simp [vsizeL]
      omega

/-- Comparison of a value with itself is truthy (fuel induction on the
value size). -/
theorem eqTruth_refl_aux : ∀ (n : Nat) (v : Val), vsize v ≤ n → eqTruth v v = .ok true := by
  intro n
  induction n with
  | zero =>
    intro v hv
    cases v with
    | int m => simp [eqTruth, elemEq, scalarEqB, truthy]
    | bool b => simp [eqTruth, elemEq, scalarEqB, truthy]
    | str s => simp [eqTruth, elemEq, scalarEqB, truthy]
    | arr xs => simp [vsize] at hv
  | succ m ih =>
    intro v hv
    cases v with
    | int k => simp [eqTruth, elemEq, scalarEqB, truthy]
    | bool b => simp [eqTruth, elemEq, scalarEqB, truthy]
    | str s => simp [eqTruth, elemEq, scalarEqB, truthy]
    | arr xs =>
      refine (eqTruth_arr_iff xs xs).mpr ⟨rfl, ?_⟩
      intro i hx hy
      apply ih
      have hmem : xs.get ⟨i, hx⟩ ∈ xs := List.get_mem xs _ hx
      have h1 : vsize (xs.get ⟨i, hx⟩) ≤ vsizeL xs := vsize_mem_le hmem
      have h2 : vsize (.arr xs) = 1 + xs.length + vsizeL xs := rfl
      omega

/-- C6: two Containers compare equal (the truthiness of `__eq__`, which is
exactly how the source's Array-valued `==` is read as a Boolean) iff their
lengths match and every pair of corresponding elements compares equal,
recursively; any value — in particular a structurally equal but distinct
copy — compares equal to itself and produces the identical snapshot hash.
(The hash is a pure function of the tree value, so a hash already computed
from a snapshot is a fixed number that later mutations cannot change.) -/
theorem C6_equality_and_hash :
    (∀ (xs ys : List Val),
       eqTruth (.arr xs) (.arr ys) = .ok true ↔
         xs.length = ys.length ∧
         ∀ i (hx : i < xs.length) (hy : i < ys.length),
           eqTruth (xs.get ⟨i, hx⟩) (ys.get ⟨i, hy⟩) = .ok true) ∧
    (∀ v : Val, eqTruth v v = .ok true) ∧
    (∀ a b : Val, a = b → eqTruth a b = .ok true ∧ pyHash a = pyHash b) := by
  have hrefl : ∀ v : Val, eqTruth v v = .ok true :=
    fun v => eqTruth_refl_aux (vsize v) v (Nat.le_refl _)
  exact ⟨eqTruth_arr_iff, hrefl, fun a b h => ⟨h ▸ hrefl a, by rw [h]⟩⟩

/-- C6 witness: the decomposition and the reflexivity/hash clause applied
at concrete equal Containers. -/
theorem C6_witness :
    eqTruth (.arr [Val.int 1, .arr [Val.int 2]]) (.arr [Val.int 1, .arr [Val.int 2]]) =
      .ok true ∧
    (eqTruth (.arr [Val.int 7]) (.arr [Val.int 7]) = .ok true ∧
      pyHash (.arr [Val.int 7]) = pyHash (.arr [Val.int 7])) :=
  ⟨(C6_equality_and_hash.1 [Val.int 1, .arr [Val.int 2]] [Val.int 1, .arr [Val.int 2]]).mpr
      ⟨rfl, fun _ _ _ => C6_equality_and_hash.2.1 _⟩,
   C6_equality_and_hash.2.2 (.arr [Val.int 7]) (.arr [Val.int 7]) rfl⟩

end Funct
